import Mathlib

/-
Verification of the command-batching layer of the pyasic BFGMiner API client
(`pyasic/API/bfgminer.py`).

The class `BFGMinerAPI` orchestrates commands on top of an inherited
dispatcher `send_command` (defined in `BaseMinerAPI`, outside the present
sources).  We embed the orchestration logic shallowly: the dispatcher is an
oracle `send : String → Bool → SendRes` mapping a command string and an
`allow_warning` flag to either a decoded reply dictionary, an `APIError`, or
any other exception (connection-level failure).  Python dictionaries are
embedded as insertion-ordered association lists, and every function also
returns the trace of `(command, allow_warning)` dispatcher calls it issued,
so that claims about which requests reach the wire can be stated.
-/

namespace Pyasic

/-- A value stored in a decoded reply dictionary: a nested dictionary,
a Python list, or a boolean (the `multicommand` marker). -/
inductive DVal where
  | dict (entries : List (String × DVal))
  | list (items : List DVal)
  | bool (b : Bool)

/-- A decoded reply, as `send_command` returns it: a Python dict embedded as
an insertion-ordered association list. -/
abbrev Dict := List (String × DVal)

/-- Outcome of one `send_command` call: a decoded reply, a raised `APIError`,
or any other raised exception (socket/connection level). -/
inductive SendRes where
  | ok (r : Dict)
  | apiErr
  | connErr

/-- Whether a dispatcher call returned normally. -/
def SendRes.isOk : SendRes → Bool
  | .ok _ => true
  | .apiErr => false
  | .connErr => false

/-- Python dict assignment `d[k] = v`: replace the value in place if the key
is present, otherwise append the binding at the end. -/
def setKey : Dict → String → DVal → Dict
  | [], k, v => [(k, v)]
  | (k₀, v₀) :: rest, k, v =>
      if k₀ = k then (k, v) :: rest else (k₀, v₀) :: setKey rest k v

/-- Read the list stored under key `k` (used to model `data[cmd].append`). -/
def getList (d : Dict) (k : String) : List DVal :=
  match List.lookup k d with
  | some (.list l) => l
  | _ => []

/-- Python `sep.join(parts)` for the batch separator. -/
def pyJoin (sep : String) : List String → String
  | [] => ""
  | [c] => c
  | c :: rest => c ++ sep ++ pyJoin sep rest

/-- Helper for `pySplit`, working over the character list. -/
def splitCharAux (sep : Char) : List Char → List (List Char)
  | [] => [[]]
  | c :: rest =>
      match splitCharAux sep rest with
      | [] => [[]]
      | g :: gs => if c = sep then [] :: g :: gs else (c :: g) :: gs

/-- Python `s.split(sep)` for a one-character separator: splitting the empty
string yields `[""]`, and separators at the ends yield empty fields. -/
def pySplit (s : String) (sep : Char) : List String :=
  (splitCharAux sep s.data).map (fun l => String.mk l)

/-- Embedding of the loop body of `BFGMinerAPI._x19_multicommand`
(bfgminer.py lines 59–72).  The Python `try` block encloses the whole `for`
loop: `data[cmd] = []` is executed, then `send_command(cmd, allow_warning=True)`;
a raised `APIError` (swallowed by `except APIError: pass`) or any other
exception (logged by `except Exception`) leaves the loop immediately and the
dictionary accumulated so far is returned.  The second component is the trace
of dispatcher calls issued. -/
def x19Loop (send : String → Bool → SendRes) :
    List String → Dict → Dict × List (String × Bool)
  | [], data => (data, [])
  | cmd :: rest, data =>
      let data₁ := setKey data cmd (.list [])
      match send cmd true with
      | .ok r =>
          let data₂ := setKey data₁ cmd (.list (getList data₁ cmd ++ [.dict r]))
          let res := x19Loop send rest data₂
          (res.1, (cmd, true) :: res.2)
      | .apiErr => (data₁, [(cmd, true)])
      | .connErr => (data₁, [(cmd, true)])

/-- Embedding of `BFGMinerAPI._x19_multicommand` (bfgminer.py lines 58–72):
run the loop starting from the empty dictionary `data = {}`. -/
def x19Multicommand (send : String → Bool → SendRes) (commands : List String) :
    Dict × List (String × Bool) :=
  x19Loop send commands []

/-- Modelled from the spec: `_check_commands` lives in `BaseMinerAPI`, outside
the given sources.  Per the spec, each command is "independently validated …
before any I/O — if any command is invalid, drop it from the batch rather
than failing the whole batch". -/
def checkCommands (supported : String → Bool) (commands : List String) :
    List String :=
  commands.filter supported

/-- Outcome of a `multicommand` call: a returned dictionary, or a propagated
non-`APIError` exception. -/
inductive MCOutcome where
  | ok (d : Dict)
  | raised

/-- Embedding of `BFGMinerAPI.multicommand` (bfgminer.py lines 44–56):
validate the commands, join them with `"+"`, attempt one dispatcher call with
the combined string; on `APIError` fall back to `_x19_multicommand` over
`command.split("+")`; finally set `data["multicommand"] = True`.  Any other
exception from the batched attempt propagates.  The second component is the
trace of dispatcher calls issued. -/
def multicommand (supported : String → Bool) (send : String → Bool → SendRes)
    (commands : List String) (allow_warning : Bool) :
    MCOutcome × List (String × Bool) :=
  let cmds := checkCommands supported commands
  let command := pyJoin "+" cmds
  match send command allow_warning with
  | .ok data =>
      (.ok (setKey data "multicommand" (.bool true)), [(command, allow_warning)])
  | .apiErr =>
      let res := x19Multicommand send (pySplit command '+')
      (.ok (setKey res.1 "multicommand" (.bool true)),
        (command, allow_warning) :: res.2)
  | .connErr => (.raised, [(command, allow_warning)])

/-- A parameter value handed to `send_command`: the Python methods pass either
a string or an integer. -/
inductive Param where
  | str (s : String)
  | int (n : Int)
deriving DecidableEq

/-- Embedding of `BFGMinerAPI.pgaenable`: dispatches `("pgaenable", n)`. -/
def pgaenable (n : Int) : String × Option Param :=
  ("pgaenable", some (.int n))

/-- Embedding of `BFGMinerAPI.pgadisable`: dispatches `("pgadisable", n)`. -/
def pgadisable (n : Int) : String × Option Param :=
  ("pgadisable", some (.int n))

/-- Embedding of `BFGMinerAPI.pgarestart` (bfgminer.py lines 397–409),
documented "Restart PGA n": its body is
`self.send_command("pgadisable", parameters=n)`. -/
def pgarestart (n : Int) : String × Option Param :=
  ("pgadisable", some (.int n))

/-- Embedding of `BFGMinerAPI.procdisable`: dispatches `("procdisable", n)`. -/
def procdisable (n : Int) : String × Option Param :=
  ("procdisable", some (.int n))

/-- Embedding of `BFGMinerAPI.procrestart` (bfgminer.py lines 453–465),
documented "Restart processor n": its body is
`self.send_command("procdisable", parameters=n)`. -/
def procrestart (n : Int) : String × Option Param :=
  ("procdisable", some (.int n))

/-- Embedding of `BFGMinerAPI.pgaset` (bfgminer.py lines 602–629):
`if val:` — Python truthiness, so `None` and `0` both take the `else`
branch — dispatches `("pgaset", f"{n},{opt},{val}")` or
`("pgaset", f"{n},{opt}")`. -/
def pgaset (n : Int) (opt : String) (val : Option Int) : String × Option Param :=
  match val with
  | some v =>
      if v ≠ 0 then
        ("pgaset", some (.str (toString n ++ "," ++ opt ++ "," ++ toString v)))
      else
        ("pgaset", some (.str (toString n ++ "," ++ opt)))
  | none => ("pgaset", some (.str (toString n ++ "," ++ opt)))

/-- Embedding of `BFGMinerAPI.pprocset` (bfgminer.py lines 631–658),
documented "Set processor option opt to val on processor n": its body is
identical to `pgaset` and dispatches the command name `"pgaset"`. -/
def pprocset (n : Int) (opt : String) (val : Option Int) : String × Option Param :=
  match val with
  | some v =>
      if v ≠ 0 then
        ("pgaset", some (.str (toString n ++ "," ++ opt ++ "," ++ toString v)))
      else
        ("pgaset", some (.str (toString n ++ "," ++ opt)))
  | none => ("pgaset", some (.str (toString n ++ "," ++ opt)))

/-- Stringify a parameter the way the f-strings in the methods do. -/
def paramToString : Param → String
  | .str s => s
  | .int n => toString n

/-- Modelled from the spec: the Wire Codec encode step lives in
`BaseMinerAPI.send_command`, outside the given sources.  Per the spec,
"when a command carries parameters, append a parameter-separator (`,`)
followed by the stringified parameter list". -/
def encodeWire : String × Option Param → String
  | (cmd, some p) => cmd ++ "," ++ paramToString p
  | (cmd, none) => cmd

/-- Extract the dictionary from a `multicommand` outcome (empty if an
exception propagated). -/
def MCOutcome.dictD : MCOutcome → Dict
  | .ok d => d
  | .raised => []

/-- The key set of a reply dictionary. -/
def keysOf (d : Dict) : Finset String :=
  (d.map Prod.fst).toFinset

/-- Example dispatcher: `"b"` succeeds, everything else (including the
batched string `"a+b"`) raises `APIError`. -/
def sendC1 : String → Bool → SendRes := fun cmd _ =>
  if cmd = "b" then .ok [("B", .list [])] else .apiErr

/-- Example dispatcher: `"bad"` raises `APIError`, everything else succeeds
with an empty reply. -/
def sendW : String → Bool → SendRes := fun cmd _ =>
  if cmd = "bad" then .apiErr else .ok []

/-- Example dispatcher: every command succeeds with an empty reply. -/
def sendOk : String → Bool → SendRes := fun _ _ => .ok []

/-- Example reply for the command `"version"`. -/
def dVersion : Dict := [("STATUS", .list []), ("VERSION", .list [])]

/-- Example reply for the command `"pools"`. -/
def dPools : Dict := [("STATUS", .list []), ("POOLS", .list [])]

/-- Example reply for the command `"summary"`. -/
def dSummary : Dict := [("STATUS", .list []), ("SUMMARY", .list [])]

/-- Example dispatcher accepting the batched string as well as the three
individual commands, with protocol-shaped replies. -/
def send6 : String → Bool → SendRes := fun cmd _ =>
  if cmd = "version+pools+summary" then
    .ok [("STATUS", .list []), ("VERSION", .list []), ("POOLS", .list []),
         ("SUMMARY", .list [])]
  else if cmd = "version" then .ok dVersion
  else if cmd = "pools" then .ok dPools
  else if cmd = "summary" then .ok dSummary
  else .apiErr

theorem lookup_setKey_self (d : Dict) (k : String) (v : DVal) :
    List.lookup k (setKey d k v) = some v := by
  induction d with
  | nil => simp [setKey, List.lookup]
  | cons p rest ih =>
      obtain ⟨k₀, v₀⟩ := p
      by_cases h : k₀ = k
      · subst h
        simp [setKey, List.lookup]
      · have hb : (k == k₀) = false := beq_eq_false_iff_ne.mpr (Ne.symm h)
        simp [setKey, h, List.lookup, hb, ih]

theorem lookup_setKey_ne {k k₀ : String} (h : k ≠ k₀) (d : Dict) (v : DVal) :
    List.lookup k (setKey d k₀ v) = List.lookup k d := by
  have hb : (k == k₀) = false := beq_eq_false_iff_ne.mpr h
  induction d with
  | nil => simp [setKey, List.lookup, hb]
  | cons p rest ih =>
      obtain ⟨k₁, v₁⟩ := p
      by_cases h₁ : k₁ = k₀
      · subst h₁
        simp [setKey, List.lookup, hb]
      · simp [setKey, h₁, List.lookup, ih]

theorem getList_setKey_list (d : Dict) (k : String) (l : List DVal) :
    getList (setKey d k (.list l)) k = l := by
  simp [getList, lookup_setKey_self]

theorem keysOf_setKey (d : Dict) (k : String) (v : DVal) :
    keysOf (setKey d k v) = insert k (keysOf d) := by
  induction d with
  | nil => simp [keysOf, setKey]
  | cons p rest ih =>
      obtain ⟨k₀, v₀⟩ := p
      by_cases h : k₀ = k
      · subst h
        simp [keysOf, setKey]
      · have ih₂ : (List.map Prod.fst (setKey rest k v)).toFinset
            = insert k (List.map Prod.fst rest).toFinset := ih
        simp [keysOf, setKey, h, ih₂, Finset.Insert.comm k₀ k]

theorem isOk_exists {s : SendRes} (h : s.isOk = true) : ∃ r, s = .ok r := by
  cases s with
  | ok r => exact ⟨r, rfl⟩
  | apiErr => simp [SendRes.isOk] at h
  | connErr => simp [SendRes.isOk] at h

theorem x19Loop_cons_ok (send : String → Bool → SendRes) (c : String)
    (rest : List String) (data : Dict) (r : Dict) (h : send c true = .ok r) :
    x19Loop send (c :: rest) data =
      ((x19Loop send rest (setKey (setKey data c (.list [])) c (.list [.dict r]))).1,
       (c, true) ::
         (x19Loop send rest (setKey (setKey data c (.list [])) c (.list [.dict r]))).2) := by
  simp [x19Loop, h, getList_setKey_list]

theorem x19Loop_cons_fail (send : String → Bool → SendRes) (c : String)
    (rest : List String) (data : Dict) (h : (send c true).isOk = false) :
    x19Loop send (c :: rest) data = (setKey data c (.list []), [(c, true)]) := by
  cases hs : send c true
  · rw [hs] at h
    simp [SendRes.isOk] at h
  · simp [x19Loop, hs]
  · simp [x19Loop, hs]

theorem x19Loop_lookup_not_mem (send : String → Bool → SendRes) {k : String} :
    ∀ (cs : List String) (data : Dict), k ∉ cs →
      List.lookup k (x19Loop send cs data).1 = List.lookup k data := by
  intro cs
  induction cs with
  | nil =>
      intro data _
      simp [x19Loop]
  | cons c rest ih =>
      intro data hk
      have hkc : k ≠ c := by
        intro h
        exact hk (by simp [h])
      have hkr : k ∉ rest := by
        intro h
        exact hk (by simp [h])
      cases hs : send c true with
      | ok r =>
          have h₂ := ih (setKey (setKey data c (.list [])) c (.list [.dict r])) hkr
          simp [x19Loop_cons_ok send c rest data r hs, h₂, lookup_setKey_ne hkc]
      | apiErr =>
          simp [x19Loop_cons_fail send c rest data (by simp [hs, SendRes.isOk]),
                lookup_setKey_ne hkc]
      | connErr =>
          simp [x19Loop_cons_fail send c rest data (by simp [hs, SendRes.isOk]),
                lookup_setKey_ne hkc]

theorem x19Loop_stop (send : String → Bool → SendRes) {c : String}
    (hc : (send c true).isOk = false) (post : List String) :
    ∀ (front : List String) (data : Dict),
      x19Loop send (front ++ c :: post) data = x19Loop send (front ++ [c]) data := by
  intro front
  induction front with
  | nil =>
      intro data
      simp only [List.nil_append]
      rw [x19Loop_cons_fail send c post data hc, x19Loop_cons_fail send c [] data hc]
  | cons a front ih =>
      intro data
      simp only [List.cons_append]
      cases hs : send a true with
      | ok r =>
          rw [x19Loop_cons_ok send a _ data r hs, x19Loop_cons_ok send a _ data r hs, ih]
      | apiErr =>
          rw [x19Loop_cons_fail send a _ data (by simp [hs, SendRes.isOk]),
              x19Loop_cons_fail send a _ data (by simp [hs, SendRes.isOk])]
      | connErr =>
          rw [x19Loop_cons_fail send a _ data (by simp [hs, SendRes.isOk]),
              x19Loop_cons_fail send a _ data (by simp [hs, SendRes.isOk])]

theorem x19Loop_all_ok (send : String → Bool → SendRes) :
    ∀ (cs : List String) (data : Dict), cs.Nodup →
      (∀ a ∈ cs, (send a true).isOk = true) →
      (x19Loop send cs data).2 = cs.map (fun a => (a, true)) ∧
      ∀ a ∈ cs, ∃ r, send a true = .ok r ∧
        List.lookup a (x19Loop send cs data).1 = some (.list [.dict r]) := by
  intro cs
  induction cs with
  | nil =>
      intro data _ _
      refine ⟨by simp [x19Loop], ?_⟩
      intro a ha
      simp at ha
  | cons c rest ih =>
      intro data hnd hok
      obtain ⟨r, hr⟩ := isOk_exists (hok c (by simp))
      have hcr : c ∉ rest := (List.nodup_cons.mp hnd).1
      have hnd₁ : rest.Nodup := (List.nodup_cons.mp hnd).2
      have hok₁ : ∀ a ∈ rest, (send a true).isOk = true := fun a ha => hok a (by simp [ha])
      obtain ⟨ht, hl⟩ := ih (setKey (setKey data c (.list [])) c (.list [.dict r])) hnd₁ hok₁
      refine ⟨by simp [x19Loop_cons_ok send c rest data r hr, ht], ?_⟩
      intro a ha
      rcases List.mem_cons.mp ha with h | h
      · refine ⟨r, by rw [h]; exact hr, ?_⟩
        rw [h]
        simp only [x19Loop_cons_ok send c rest data r hr]
        rw [x19Loop_lookup_not_mem send rest _ hcr, lookup_setKey_self]
      · obtain ⟨r₁, hr₁, hl₁⟩ := hl a h
        refine ⟨r₁, hr₁, ?_⟩
        simp only [x19Loop_cons_ok send c rest data r hr]
        exact hl₁

theorem x19Loop_first_fail (send : String → Bool → SendRes) {c : String}
    (hc : (send c true).isOk = false) :
    ∀ (front : List String) (data : Dict), (front ++ [c]).Nodup →
      (∀ a ∈ front, (send a true).isOk = true) →
      (x19Loop send (front ++ [c]) data).2
          = front.map (fun a => (a, true)) ++ [(c, true)] ∧
      List.lookup c (x19Loop send (front ++ [c]) data).1 = some (.list []) ∧
      ∀ a ∈ front, ∃ r, send a true = .ok r ∧
        List.lookup a (x19Loop send (front ++ [c]) data).1 = some (.list [.dict r]) := by
  intro front
  induction front with
  | nil =>
      intro data _ _
      simp only [List.nil_append]
      rw [x19Loop_cons_fail send c [] data hc]
      refine ⟨rfl, by simp [lookup_setKey_self], ?_⟩
      intro a ha
      simp at ha
  | cons a front ih =>
      intro data hnd hok
      rw [List.cons_append] at hnd ⊢
      obtain ⟨r, hr⟩ := isOk_exists (hok a (by simp))
      have hmem : a ∉ front ++ [c] := (List.nodup_cons.mp hnd).1
      have hnd₁ : (front ++ [c]).Nodup := (List.nodup_cons.mp hnd).2
      have hok₁ : ∀ x ∈ front, (send x true).isOk = true := fun x hx => hok x (by simp [hx])
      obtain ⟨ht, hlc, hla⟩ :=
        ih (setKey (setKey data a (.list [])) a (.list [.dict r])) hnd₁ hok₁
      refine ⟨?_, ?_, ?_⟩
      · simp [x19Loop_cons_ok send a _ data r hr, ht]
      · simp only [x19Loop_cons_ok send a _ data r hr]
        exact hlc
      · intro x hx
        rcases List.mem_cons.mp hx with h | h
        · refine ⟨r, by rw [h]; exact hr, ?_⟩
          rw [h]
          simp only [x19Loop_cons_ok send a _ data r hr]
          rw [x19Loop_lookup_not_mem send _ _ hmem, lookup_setKey_self]
        · obtain ⟨r₁, hr₁, hl₁⟩ := hla x h
          refine ⟨r₁, hr₁, ?_⟩
          simp only [x19Loop_cons_ok send a _ data r hr]
          exact hl₁

theorem x19Loop_trace_true (send : String → Bool → SendRes) :
    ∀ (cs : List String) (data : Dict) (p : String × Bool),
      p ∈ (x19Loop send cs data).2 → p.2 = true := by
  intro cs
  induction cs with
  | nil =>
      intro data p hp
      simp [x19Loop] at hp
  | cons c rest ih =>
      intro data p hp
      cases hs : send c true with
      | ok r =>
          rw [x19Loop_cons_ok send c rest data r hs] at hp
          rcases List.mem_cons.mp hp with h | h
          · rw [h]
          · exact ih _ p h
      | apiErr =>
          rw [x19Loop_cons_fail send c rest data (by simp [hs, SendRes.isOk])] at hp
          rcases List.mem_cons.mp hp with h | h
          · rw [h]
          · simp at h
      | connErr =>
          rw [x19Loop_cons_fail send c rest data (by simp [hs, SendRes.isOk])] at hp
          rcases List.mem_cons.mp hp with h | h
          · rw [h]
          · simp at h

/-- C1 (counterexample): with the dispatcher `sendC1` — batched `"a+b"`
rejected with `APIError`, `"a"` failing individually, `"b"` succeeding
individually — the reply of `multicommand` does not contain an entry for the
succeeding command `"b"`, keeps an (empty) entry for the failing command
`"a"`, and `"b"` is never issued: the fallback loop aborts at the first
failure instead of skipping it. -/
theorem C1_sequential_fallback_cex :
    (sendC1 "b" true).isOk = true ∧
    (sendC1 "a" true).isOk = false ∧
    sendC1 "a+b" true = .apiErr ∧
    List.lookup "a" (multicommand (fun _ => true) sendC1 ["a", "b"] true).1.dictD
        = some (.list []) ∧
    List.lookup "b" (multicommand (fun _ => true) sendC1 ["a", "b"] true).1.dictD
        = none ∧
    ("b", true) ∉ (multicommand (fun _ => true) sendC1 ["a", "b"] true).2 := by
  refine ⟨rfl, rfl, rfl, rfl, rfl, ?_⟩
  decide

/-- C1 (amended): in the sequential fallback `_x19_multicommand`, if every
command succeeds individually then the reply holds a one-element-list entry
for each of them; otherwise the loop aborts at the first command whose
individual `send_command` fails: the commands before it keep their
one-element-list entries, the failing command is left with an empty-list
entry, and the commands after it are never issued and are absent from the
reply.  Either way the failure is swallowed, not propagated. -/
theorem C1_sequential_fallback_amended (send : String → Bool → SendRes) :
    (∀ (cs : List String), cs.Nodup →
        (∀ a ∈ cs, (send a true).isOk = true) →
        (x19Multicommand send cs).2 = cs.map (fun a => (a, true)) ∧
        ∀ a ∈ cs, ∃ r, send a true = .ok r ∧
          List.lookup a (x19Multicommand send cs).1 = some (.list [.dict r])) ∧
    (∀ (front : List String) (c : String) (post : List String),
        (front ++ c :: post).Nodup →
        (∀ a ∈ front, (send a true).isOk = true) →
        (send c true).isOk = false →
        (x19Multicommand send (front ++ c :: post)).2
            = front.map (fun a => (a, true)) ++ [(c, true)] ∧
        List.lookup c (x19Multicommand send (front ++ c :: post)).1
            = some (.list []) ∧
        (∀ a ∈ front, ∃ r, send a true = .ok r ∧
          List.lookup a (x19Multicommand send (front ++ c :: post)).1
              = some (.list [.dict r])) ∧
        (∀ a ∈ post,
          List.lookup a (x19Multicommand send (front ++ c :: post)).1 = none)) := by
  constructor
  · intro cs hnd hok
    exact x19Loop_all_ok send cs [] hnd hok
  · intro front c post hnd hok hc
    have hsub : (front ++ [c]).Sublist (front ++ c :: post) :=
      List.Sublist.append_left (List.cons_sublist_cons.mpr (List.nil_sublist post)) front
    have hnd₁ : (front ++ [c]).Nodup := List.Nodup.sublist hsub hnd
    obtain ⟨ht, hlc, hla⟩ := x19Loop_first_fail send hc front [] hnd₁ hok
    unfold x19Multicommand
    rw [x19Loop_stop send hc post front []]
    refine ⟨ht, hlc, hla, ?_⟩
    intro a ha
    have hamem : a ∉ front ++ [c] := by
      intro hmem
      rcases List.mem_append.mp hmem with h₁ | h₂
      · exact (List.disjoint_of_nodup_append hnd) h₁ (by simp [ha])
      · have hcp : (c :: post).Nodup := List.Nodup.of_append_right hnd
        have hcnp : c ∉ post := (List.nodup_cons.mp hcp).1
        have : a = c := by simpa using h₂
        exact hcnp (this ▸ ha)
    rw [x19Loop_lookup_not_mem send _ _ hamem]
    simp [List.lookup]

/-- C1 (witness): with the dispatcher `sendW` (only `"bad"` fails), the
fallback over `["a", "bad", "z"]` issues `"a"` and `"bad"` only, and the
command `"z"` after the failure is absent from the reply. -/
theorem C1_sequential_fallback_witness :
    (x19Multicommand sendW ["a", "bad", "z"]).2 = [("a", true), ("bad", true)] ∧
    List.lookup "z" (x19Multicommand sendW ["a", "bad", "z"]).1 = none ∧
    (x19Multicommand sendW ["a", "b"]).2 = [("a", true), ("b", true)] := by
  have h := (C1_sequential_fallback_amended sendW).2 ["a"] "bad" ["z"]
    (by decide) (by decide) (by decide)
  have h₂ := (C1_sequential_fallback_amended sendW).1 ["a", "b"]
    (by decide) (by decide)
  exact ⟨h.1, h.2.2.2 "z" (by simp), h₂.1⟩

/-- C2 (confirmed): `multicommand` joins the validated commands with the
batch separator `"+"`, issues exactly one dispatcher call with the combined
string, and switches to the sequential strategy over `command.split("+")`
exactly when that call raises `APIError` (any other outcome issues no further
call). -/
theorem C2_two_strategy (supported : String → Bool) (send : String → Bool → SendRes)
    (commands : List String) (aw : Bool) :
    (multicommand supported send commands aw).2.head?
        = some (pyJoin "+" (checkCommands supported commands), aw) ∧
    (∀ data, send (pyJoin "+" (checkCommands supported commands)) aw = .ok data →
        multicommand supported send commands aw
          = (.ok (setKey data "multicommand" (.bool true)),
             [(pyJoin "+" (checkCommands supported commands), aw)])) ∧
    (send (pyJoin "+" (checkCommands supported commands)) aw = .apiErr →
        multicommand supported send commands aw
          = (.ok (setKey (x19Multicommand send
                (pySplit (pyJoin "+" (checkCommands supported commands)) '+')).1
                "multicommand" (.bool true)),
             (pyJoin "+" (checkCommands supported commands), aw)
               :: (x19Multicommand send
                (pySplit (pyJoin "+" (checkCommands supported commands)) '+')).2)) ∧
    (send (pyJoin "+" (checkCommands supported commands)) aw = .connErr →
        multicommand supported send commands aw
          = (.raised, [(pyJoin "+" (checkCommands supported commands), aw)])) := by
  refine ⟨?_, ?_, ?_, ?_⟩
  · cases hs : send (pyJoin "+" (checkCommands supported commands)) aw <;>
      simp [multicommand, hs]
  · intro data hdata
    simp [multicommand, hdata]
  · intro hs
    simp [multicommand, hs]
  · intro hs
    simp [multicommand, hs]

/-- C2 (witness): with `sendC1` the batched `"a+b"` raises `APIError` and
`multicommand` returns the sequential-strategy result with the batched call
followed by the fallback calls. -/
theorem C2_two_strategy_witness :
    multicommand (fun _ => true) sendC1 ["a", "b"] true
      = (.ok [("a", DVal.list []), ("multicommand", DVal.bool true)],
         [("a+b", true), ("a", true)]) := by
  have h := (C2_two_strategy (fun _ => true) sendC1 ["a", "b"] true).2.2.1 rfl
  exact h.trans rfl

/-- C3 (confirmed): `multicommand` propagates an exception only when the
batched dispatcher call itself raised a non-`APIError` (connection-level)
exception; when the batched call raises `APIError`, the sequential fallback
always returns a dictionary — individual command errors during fallback are
swallowed, never propagated. -/
theorem C3_raise_only_connection (supported : String → Bool)
    (send : String → Bool → SendRes) (commands : List String) (aw : Bool) :
    ((multicommand supported send commands aw).1 = .raised →
        send (pyJoin "+" (checkCommands supported commands)) aw = .connErr) ∧
    (send (pyJoin "+" (checkCommands supported commands)) aw = .apiErr →
        ∃ d, (multicommand supported send commands aw).1 = .ok d) := by
  constructor
  · intro h
    cases hs : send (pyJoin "+" (checkCommands supported commands)) aw
    · simp [multicommand, hs] at h
    · simp [multicommand, hs] at h
    · rfl
  · intro hs
    exact ⟨setKey (x19Multicommand send
        (pySplit (pyJoin "+" (checkCommands supported commands)) '+')).1
        "multicommand" (.bool true), by simp [multicommand, hs]⟩

/-- C3 (witness): with `sendC1`, where the batched call and the first
individual command both raise `APIError`, `multicommand` still returns a
dictionary rather than raising. -/
theorem C3_raise_only_connection_witness :
    ∃ d, (multicommand (fun _ => true) sendC1 ["a", "b"] true).1 = .ok d :=
  (C3_raise_only_connection (fun _ => true) sendC1 ["a", "b"] true).2 rfl

/-- C4 (confirmed): whenever `multicommand` returns a dictionary — via the
batched attempt or via the sequential fallback — that dictionary maps the
key `"multicommand"` to `True`. -/
theorem C4_multicommand_marker (supported : String → Bool)
    (send : String → Bool → SendRes) (commands : List String) (aw : Bool)
    (d : Dict) (h : (multicommand supported send commands aw).1 = .ok d) :
    List.lookup "multicommand" d = some (.bool true) := by
  cases hs : send (pyJoin "+" (checkCommands supported commands)) aw with
  | ok r =>
      have h₂ : (multicommand supported send commands aw).1
          = .ok (setKey r "multicommand" (.bool true)) := by
        simp [multicommand, hs]
      rw [h₂] at h
      cases h
      exact lookup_setKey_self _ _ _
  | apiErr =>
      have h₂ : (multicommand supported send commands aw).1
          = .ok (setKey (x19Multicommand send
              (pySplit (pyJoin "+" (checkCommands supported commands)) '+')).1
              "multicommand" (.bool true)) := by
        simp [multicommand, hs]
      rw [h₂] at h
      cases h
      exact lookup_setKey_self _ _ _
  | connErr =>
      have h₂ : (multicommand supported send commands aw).1 = .raised := by
        simp [multicommand, hs]
      rw [h₂] at h
      cases h

/-- C4 (witness): a concrete batched success carries the marker. -/
theorem C4_multicommand_marker_witness :
    List.lookup "multicommand" [("multicommand", DVal.bool true)]
      = some (DVal.bool true) :=
  C4_multicommand_marker (fun _ => true) sendOk ["a"] true
    [("multicommand", DVal.bool true)] rfl

/-- C5 (confirmed): every dispatcher call issued after the batched attempt —
that is, every call of the sequential fallback — passes
`allow_warning = True`, whatever flag the caller passed to `multicommand`. -/
theorem C5_fallback_allow_warning (supported : String → Bool)
    (send : String → Bool → SendRes) (commands : List String) (aw : Bool) :
    ∀ p ∈ (multicommand supported send commands aw).2.tail, p.2 = true := by
  intro p hp
  cases hs : send (pyJoin "+" (checkCommands supported commands)) aw with
  | ok r =>
      simp [multicommand, hs] at hp
  | apiErr =>
      have h₂ : (multicommand supported send commands aw).2.tail
          = (x19Multicommand send
              (pySplit (pyJoin "+" (checkCommands supported commands)) '+')).2 := by
        simp [multicommand, hs]
      rw [h₂] at hp
      exact x19Loop_trace_true send _ [] p hp
  | connErr =>
      simp [multicommand, hs] at hp

/-- C5 (witness): the caller passes `allow_warning = False`, the batched
`"a+b"` is rejected, and the fallback call for `"a"` still uses `True`. -/
theorem C5_fallback_allow_warning_witness :
    (multicommand (fun _ => true) sendC1 ["a", "b"] false).2
        = [("a+b", false), ("a", true)] ∧
    (("a", true) : String × Bool).2 = true := by
  refine ⟨by decide, ?_⟩
  exact C5_fallback_allow_warning (fun _ => true) sendC1 ["a", "b"] false
    ("a", true) (by decide)

/-- C6 (confirmed): for valid commands `a`, `b`, `c` whose batched request is
accepted, if the batched reply's key set is the union of the key sets of the
three individual `send_command` replies (as the wire protocol produces), then
the reply of `multicommand` has exactly that merged key set plus the
batching-indicator key `"multicommand"`. -/
theorem C6_merged_key_set (supported : String → Bool)
    (send : String → Bool → SendRes) (a b c : String) (aw : Bool)
    (da db dc dabc : Dict)
    (hsa : supported a = true) (hsb : supported b = true) (hsc : supported c = true)
    (ha : send a true = .ok da) (hb : send b true = .ok db)
    (hc : send c true = .ok dc)
    (hbatch : send (pyJoin "+" [a, b, c]) aw = .ok dabc)
    (hkeys : keysOf dabc = keysOf da ∪ keysOf db ∪ keysOf dc) :
    ∃ d, (multicommand supported send [a, b, c] aw).1 = .ok d ∧
      keysOf d = insert "multicommand" (keysOf da ∪ keysOf db ∪ keysOf dc) := by
  have hcheck : checkCommands supported [a, b, c] = [a, b, c] := by
    simp [checkCommands, hsa, hsb, hsc]
  refine ⟨setKey dabc "multicommand" (.bool true), ?_, ?_⟩
  · simp [multicommand, hcheck, hbatch]
  · rw [keysOf_setKey, hkeys]

/-- C6 (witness): a concrete protocol-shaped instance with commands
`version`, `pools`, `summary`. -/
theorem C6_merged_key_set_witness :
    ∃ d, (multicommand (fun _ => true) send6 ["version", "pools", "summary"] true).1
        = .ok d ∧
      keysOf d = insert "multicommand" (keysOf dVersion ∪ keysOf dPools ∪ keysOf dSummary) :=
  C6_merged_key_set (fun _ => true) send6 "version" "pools" "summary" true
    dVersion dPools dSummary
    [("STATUS", .list []), ("VERSION", .list []), ("POOLS", .list []),
     ("SUMMARY", .list [])]
    rfl rfl rfl rfl rfl rfl rfl (by decide)

/-- C7 (confirmed): `pgaset(0, "clock", 50)` dispatches the command name
`"pgaset"` with parameter string `"0,clock,50"`, and the wire encoding —
command, parameter separator `,`, parameters — is `"pgaset,0,clock,50"`. -/
theorem C7_pgaset_wire :
    pgaset 0 "clock" (some 50) = ("pgaset", some (.str "0,clock,50")) ∧
    encodeWire (pgaset 0 "clock" (some 50)) = "pgaset,0,clock,50" :=
  ⟨rfl, rfl⟩

/-- C8 (confirmed): for every `n`, `pgarestart n` dispatches exactly what
`pgadisable n` dispatches — the command name `"pgadisable"`, not
`"pgarestart"` — and `procrestart n` dispatches exactly what
`procdisable n` dispatches. -/
theorem C8_restart_dispatches_disable (n : Int) :
    pgarestart n = pgadisable n ∧ (pgarestart n).1 = "pgadisable" ∧
    (pgarestart n).1 ≠ "pgarestart" ∧
    procrestart n = procdisable n ∧ (procrestart n).1 = "procdisable" ∧
    (procrestart n).1 ≠ "procrestart" :=
  ⟨rfl, rfl, (by decide : ("pgadisable" : String) ≠ "pgarestart"), rfl, rfl,
   (by decide : ("procdisable" : String) ≠ "procrestart")⟩

/-- C9 (confirmed): for every `n`, `opt`, `val`, the processor method
`pprocset` dispatches the PGA command name `"pgaset"` — it behaves exactly
like `pgaset` and never dispatches a processor-specific command name. -/
theorem C9_pprocset_dispatches_pgaset (n : Int) (opt : String) (val : Option Int) :
    (pprocset n opt val).1 = "pgaset" ∧ (pprocset n opt val).1 ≠ "pprocset" ∧
    pprocset n opt val = pgaset n opt val := by
  have h₁ : (pprocset n opt val).1 = "pgaset" := by
    cases val with
    | none => rfl
    | some v => by_cases h : v = 0 <;> simp [pprocset, h]
  have h₃ : pprocset n opt val = pgaset n opt val := by
    cases val with
    | none => rfl
    | some v => by_cases h : v = 0 <;> simp [pprocset, pgaset, h]
  refine ⟨h₁, ?_, h₃⟩
  rw [h₁]
  decide

/-- C10 (confirmed): calling `pgaset` (or `pprocset`) with `val = 0` is
indistinguishable from omitting `val`: the truthiness test `if val:` drops
the zero, and the dispatched parameter string is `"n,opt"` with no third
field. -/
theorem C10_zero_value_dropped (n : Int) (opt : String) :
    pgaset n opt (some 0) = pgaset n opt none ∧
    (pgaset n opt (some 0)).2 = some (.str (toString n ++ "," ++ opt)) ∧
    pprocset n opt (some 0) = pprocset n opt none := by
  refine ⟨?_, ?_, ?_⟩ <;> simp [pgaset, pprocset]

end Pyasic
